import Mathlib

/-!
Shallow embedding of the dias_reports_bulk_reanalysis utility layer
(src/bin/utils/utils.py and src/bin/utils/dx_manage.py), together with
theorems settling the specification claims about it.

Python dicts keyed by strings are embedded as functions `String → List _`
(defaultdict semantics) or association lists (JSON objects); Python
datetime values are embedded as `Nat` in yyyymmdd form, which is
order-isomorphic to datetime on the valid dates the code constructs;
Python exceptions become an explicit error type.
-/

/-- Python exceptions that the embedded code can raise. -/
inductive PyErr where
  | assertionError
  | valueError
  | indexError
deriving DecidableEq

/-- Numeric value of a digit character, as Python int() on a single digit. -/
def digitVal (c : Char) : Nat := c.toNat - '0'.toNat

/-- Embedding of re.fullmatch applied to the pattern
2[0-9](0[0-9]|1[0-2])[0-3][0-9] from date_str_to_datetime in utils.py. -/
def yymmddMatch (l : List Char) : Bool :=
  match l with
  | [c0, c1, c2, c3, c4, c5] =>
    (c0 == '2') && c1.isDigit &&
    ((c2 == '0') && c3.isDigit ||
     (c2 == '1') && ((c3 == '0') || (c3 == '1') || (c3 == '2'))) &&
    ((c4 == '0') || (c4 == '1') || (c4 == '2') || (c4 == '3')) &&
    c5.isDigit
  | _ => false

/-- Days in a month for the Gregorian calendar, as enforced by Python
datetime's constructor range check. -/
def daysInMonth (year month : Nat) : Nat :=
  if month = 2 then
    (if year % 4 = 0 ∧ (year % 100 ≠ 0 ∨ year % 400 = 0) then 29 else 28)
  else if month = 4 ∨ month = 6 ∨ month = 9 ∨ month = 11 then 30 else 31

/-- Embedding of utils.date_str_to_datetime: assert the yymmdd pattern
(AssertionError on failure), strip leading zeros from each two-digit part
(int of an empty string, i.e. a part of all zeros, is a ValueError), then
build the datetime (out-of-range day for the month is a ValueError).
The resulting datetime is encoded as the Nat 20yymmdd. -/
def date_str_to_datetime (date : String) : Except PyErr Nat :=
  if yymmddMatch date.data then
    match date.data with
    | [_c0, c1, c2, c3, c4, c5] =>
      let y := 20 + digitVal c1
      if c2 = '0' ∧ c3 = '0' then .error .valueError
      else
        let m := if c2 = '0' then digitVal c3 else 10 + digitVal c3
        if c4 = '0' ∧ c5 = '0' then .error .valueError
        else
          let d := if c4 = '0' then digitVal c5
                   else 10 * digitVal c4 + digitVal c5
          if d ≤ daysInMonth (2000 + y) m then
            .ok ((2000 + y) * 10000 + m * 100 + d)
          else .error .valueError
    | _ => .error .assertionError
  else .error .assertionError

/-- One sample report record as built by parse_sample_identifiers:
project, full samplename, instrument ID and specimen ID. -/
structure Report where
  project : String
  sample : String
  instrument_id : String
  specimen_id : String
deriving DecidableEq

/-- Pointwise update of a string-keyed map, the effect of writing one key
of a Python dict embedded as a function. -/
def updFun {α : Type} (m : String → α) (k : String) (v : α) : String → α :=
  fun x => if x = k then v else m x

/-- One step of the first loop of filter_non_unique_specimen_ids: append
the instrument ID under the specimen ID key unless already present. -/
def sampleMapStep (m : String → List String) (r : Report) :
    String → List String :=
  if r.instrument_id ∈ m r.specimen_id then m
  else updFun m r.specimen_id (m r.specimen_id ++ [r.instrument_id])

/-- The sample_map defaultdict built by the first loop of
filter_non_unique_specimen_ids: specimen ID to distinct instrument IDs. -/
def buildSampleMap (reports : List Report) : String → List String :=
  reports.foldl sampleMapStep (fun _ => [])

/-- One step of the second loop of filter_non_unique_specimen_ids. -/
def splitStep (sample_map : String → List String)
    (acc : List Report × (String → List Report)) (r : Report) :
    List Report × (String → List Report) :=
  if (sample_map r.specimen_id).length > 1 then
    (acc.1, updFun acc.2 r.specimen_id (acc.2 r.specimen_id ++ [r]))
  else
    (acc.1 ++ [r], acc.2)

/-- Embedding of utils.filter_non_unique_specimen_ids: returns the unique
list and the non_unique defaultdict of specimen ID to reports. -/
def filter_non_unique_specimen_ids (reports : List Report) :
    List Report × (String → List Report) :=
  let sample_map := buildSampleMap reports
  reports.foldl (splitStep sample_map) ([], fun _ => [])

/-- The distinct instrument IDs associated with a specimen ID across the
input, stated independently of the fold that the code uses. -/
def distinctInstruments (reports : List Report) (sp : String) : List String :=
  ((reports.filter (fun r => r.specimen_id = sp)).map
    (fun r => r.instrument_id)).dedup

lemma mem_sampleMapStep (m : String → List String) (r : Report)
    (sp : String) (a : String) :
    a ∈ sampleMapStep m r sp ↔
      a ∈ m sp ∨ (r.specimen_id = sp ∧ r.instrument_id = a) := by
  unfold sampleMapStep
  by_cases h : r.instrument_id ∈ m r.specimen_id
  · rw [if_pos h]
    constructor
    · exact fun hm => Or.inl hm
    · rintro (hm | ⟨hsp, ha⟩)
      · exact hm
      · subst hsp; subst ha; exact h
  · rw [if_neg h]
    unfold updFun
    by_cases hsp : sp = r.specimen_id
    · subst hsp
      rw [if_pos rfl, List.mem_append, List.mem_singleton]
      constructor
      · rintro (hm | ha)
        · exact Or.inl hm
        · exact Or.inr ⟨rfl, ha.symm⟩
      · rintro (hm | ⟨_, ha⟩)
        · exact Or.inl hm
        · exact Or.inr ha.symm
    · rw [if_neg hsp]
      constructor
      · exact fun hm => Or.inl hm
      · rintro (hm | ⟨hsp2, _⟩)
        · exact hm
        · exact absurd hsp2.symm hsp

lemma mem_foldl_sampleMapStep (reports : List Report)
    (m : String → List String) (sp : String) (a : String) :
    a ∈ (reports.foldl sampleMapStep m) sp ↔
      a ∈ m sp ∨ ∃ r ∈ reports, r.specimen_id = sp ∧ r.instrument_id = a := by
  induction reports generalizing m with
  | nil => simp
  | cons r rest ih =>
    simp only [List.foldl_cons, ih, mem_sampleMapStep, List.mem_cons]
    constructor
    · rintro ((hm | hr) | ⟨r2, hr2, h2⟩)
      · exact Or.inl hm
      · exact Or.inr ⟨r, Or.inl rfl, hr⟩
      · exact Or.inr ⟨r2, Or.inr hr2, h2⟩
    · rintro (hm | ⟨r2, (rfl | hr2), h2⟩)
      · exact Or.inl (Or.inl hm)
      · exact Or.inl (Or.inr h2)
      · exact Or.inr ⟨r2, hr2, h2⟩

lemma nodup_foldl_sampleMapStep (reports : List Report)
    (m : String → List String) (hm : ∀ sp, (m sp).Nodup) (sp : String) :
    ((reports.foldl sampleMapStep m) sp).Nodup := by
  induction reports generalizing m with
  | nil => exact hm sp
  | cons r rest ih =>
    refine ih _ (fun sp2 => ?_)
    unfold sampleMapStep
    by_cases h : r.instrument_id ∈ m r.specimen_id
    · rw [if_pos h]; exact hm sp2
    · rw [if_neg h]
      unfold updFun
      by_cases hsp : sp2 = r.specimen_id
      · subst hsp
        rw [if_pos rfl, List.nodup_append]
        refine ⟨hm _, List.nodup_singleton _, ?_⟩
        intro a ha hb
        rw [List.mem_singleton] at hb
        subst hb
        exact h ha
      · rw [if_neg hsp]; exact hm sp2

lemma mem_buildSampleMap (reports : List Report) (sp a : String) :
    a ∈ buildSampleMap reports sp ↔
      ∃ r ∈ reports, r.specimen_id = sp ∧ r.instrument_id = a := by
  unfold buildSampleMap
  rw [mem_foldl_sampleMapStep]
  simp

lemma nodup_buildSampleMap (reports : List Report) (sp : String) :
    (buildSampleMap reports sp).Nodup :=
  nodup_foldl_sampleMapStep reports _ (fun _ => List.nodup_nil) sp

lemma mem_distinctInstruments (reports : List Report) (sp a : String) :
    a ∈ distinctInstruments reports sp ↔
      ∃ r ∈ reports, r.specimen_id = sp ∧ r.instrument_id = a := by
  unfold distinctInstruments
  simp only [List.mem_dedup, List.mem_map, List.mem_filter]
  constructor
  · rintro ⟨r, ⟨hr, hsp⟩, ha⟩
    exact ⟨r, hr, by simpa using hsp, ha⟩
  · rintro ⟨r, hr, hsp, ha⟩
    exact ⟨r, ⟨hr, by simpa using hsp⟩, ha⟩

lemma length_buildSampleMap_eq (reports : List Report) (sp : String) :
    (buildSampleMap reports sp).length =
      (distinctInstruments reports sp).length := by
  refine List.Perm.length_eq
    ((List.perm_ext_iff_of_nodup (nodup_buildSampleMap reports sp) ?_).mpr ?_)
  · unfold distinctInstruments
    exact List.nodup_dedup _
  · intro a
    rw [mem_buildSampleMap, mem_distinctInstruments]

lemma mem_foldl_splitStep_fst (sm : String → List String)
    (reports : List Report) (acc : List Report × (String → List Report))
    (r : Report) :
    r ∈ (reports.foldl (splitStep sm) acc).1 ↔
      r ∈ acc.1 ∨ (r ∈ reports ∧ ¬(sm r.specimen_id).length > 1) := by
  induction reports generalizing acc with
  | nil => simp
  | cons rep rest ih =>
    simp only [List.foldl_cons, ih, List.mem_cons]
    unfold splitStep
    by_cases hc : (sm rep.specimen_id).length > 1
    · rw [if_pos hc]
      constructor
      · rintro (ha | hr)
        · exact Or.inl ha
        · exact Or.inr ⟨Or.inr hr.1, hr.2⟩
      · rintro (ha | ⟨rfl | hr, hlen⟩)
        · exact Or.inl ha
        · exact absurd hc hlen
        · exact Or.inr ⟨hr, hlen⟩
    · rw [if_neg hc]
      simp only [List.mem_append, List.mem_singleton]
      constructor
      · rintro ((ha | rfl) | hr)
        · exact Or.inl ha
        · exact Or.inr ⟨Or.inl rfl, hc⟩
        · exact Or.inr ⟨Or.inr hr.1, hr.2⟩
      · rintro (ha | ⟨rfl | hr, hlen⟩)
        · exact Or.inl (Or.inl ha)
        · exact Or.inl (Or.inr rfl)
        · exact Or.inr ⟨hr, hlen⟩

lemma mem_foldl_splitStep_snd (sm : String → List String)
    (reports : List Report) (acc : List Report × (String → List Report))
    (r : Report) (sp : String) :
    r ∈ (reports.foldl (splitStep sm) acc).2 sp ↔
      r ∈ acc.2 sp ∨
        (r ∈ reports ∧ r.specimen_id = sp ∧ (sm r.specimen_id).length > 1) := by
  induction reports generalizing acc with
  | nil => simp
  | cons rep rest ih =>
    simp only [List.foldl_cons, ih, List.mem_cons]
    unfold splitStep
    by_cases hc : (sm rep.specimen_id).length > 1
    · rw [if_pos hc]
      dsimp only
      unfold updFun
      by_cases hsp : sp = rep.specimen_id
      · subst hsp
        rw [if_pos rfl]
        simp only [List.mem_append, List.mem_singleton]
        constructor
        · rintro ((ha | rfl) | hr)
          · exact Or.inl ha
          · exact Or.inr ⟨Or.inl rfl, rfl, hc⟩
          · exact Or.inr ⟨Or.inr hr.1, hr.2⟩
        · rintro (ha | ⟨rfl | hr, hspr, hlen⟩)
          · exact Or.inl (Or.inl ha)
          · exact Or.inl (Or.inr rfl)
          · exact Or.inr ⟨hr, hspr, hlen⟩
      · rw [if_neg hsp]
        constructor
        · rintro (ha | hr)
          · exact Or.inl ha
          · exact Or.inr ⟨Or.inr hr.1, hr.2⟩
        · rintro (ha | ⟨rfl | hr, hspr, hlen⟩)
          · exact Or.inl ha
          · exact absurd hspr.symm hsp
          · exact Or.inr ⟨hr, hspr, hlen⟩
    · rw [if_neg hc]
      dsimp only
      constructor
      · rintro (ha | hr)
        · exact Or.inl ha
        · exact Or.inr ⟨Or.inr hr.1, hr.2⟩
      · rintro (ha | ⟨rfl | hr, hspr, hlen⟩)
        · exact Or.inl ha
        · exact absurd hlen hc
        · exact Or.inr ⟨hr, hspr, hlen⟩

lemma mem_unique_iff (reports : List Report) (r : Report) :
    r ∈ (filter_non_unique_specimen_ids reports).1 ↔
      r ∈ reports ∧ ¬(buildSampleMap reports r.specimen_id).length > 1 := by
  unfold filter_non_unique_specimen_ids
  rw [mem_foldl_splitStep_fst]
  simp

lemma mem_non_unique_iff (reports : List Report) (r : Report) (sp : String) :
    r ∈ (filter_non_unique_specimen_ids reports).2 sp ↔
      r ∈ reports ∧ r.specimen_id = sp ∧
        (buildSampleMap reports r.specimen_id).length > 1 := by
  unfold filter_non_unique_specimen_ids
  rw [mem_foldl_splitStep_snd]
  simp

lemma one_le_length_buildSampleMap (reports : List Report) (r : Report)
    (h : r ∈ reports) : 1 ≤ (buildSampleMap reports r.specimen_id).length := by
  have hm : r.instrument_id ∈ buildSampleMap reports r.specimen_id :=
    (mem_buildSampleMap reports r.specimen_id r.instrument_id).mpr
      ⟨r, h, rfl, rfl⟩
  rcases hbs : buildSampleMap reports r.specimen_id with _ | ⟨x, xs⟩
  · rw [hbs] at hm
    exact absurd hm (List.not_mem_nil _)
  · exact Nat.succ_le_succ (Nat.zero_le _)

/-- C1: for every input list of reports, a record is returned in the
unique list iff its specimen ID is associated with exactly one distinct
instrument ID across the whole input; every record of a specimen with
more than one distinct instrument ID is returned under its specimen ID in
the non-unique mapping and never in the unique list; and every input
record lands in exactly one of the two outputs. -/
theorem filter_non_unique_specimen_ids_correct (reports : List Report)
    (r : Report) (h : r ∈ reports) :
    (r ∈ (filter_non_unique_specimen_ids reports).1 ↔
      (distinctInstruments reports r.specimen_id).length = 1) ∧
    ((distinctInstruments reports r.specimen_id).length > 1 →
      r ∈ (filter_non_unique_specimen_ids reports).2 r.specimen_id ∧
      r ∉ (filter_non_unique_specimen_ids reports).1) ∧
    (r ∈ (filter_non_unique_specimen_ids reports).1 ∨
      r ∈ (filter_non_unique_specimen_ids reports).2 r.specimen_id) ∧
    ¬(r ∈ (filter_non_unique_specimen_ids reports).1 ∧
      r ∈ (filter_non_unique_specimen_ids reports).2 r.specimen_id) := by
  have hlen := length_buildSampleMap_eq reports r.specimen_id
  have hone := one_le_length_buildSampleMap reports r h
  have huniq := mem_unique_iff reports r
  have hnon := mem_non_unique_iff reports r r.specimen_id
  constructor
  · rw [huniq, ← hlen]
    constructor
    · rintro ⟨_, hgt⟩
      omega
    · intro he
      exact ⟨h, by omega⟩
  constructor
  · intro hgt
    rw [← hlen] at hgt
    constructor
    · rw [hnon]
      exact ⟨h, rfl, hgt⟩
    · rw [huniq]
      rintro ⟨_, hng⟩
      exact hng hgt
  constructor
  · rw [huniq, hnon]
    by_cases hgt : (buildSampleMap reports r.specimen_id).length > 1
    · exact Or.inr ⟨h, rfl, hgt⟩
    · exact Or.inl ⟨h, hgt⟩
  · rw [huniq, hnon]
    rintro ⟨⟨_, hng⟩, ⟨_, _, hgt⟩⟩
    exact hng hgt

/-- Concrete report record used to witness the C1 theorem. -/
def repA : Report :=
  { project := "project-a", sample := "111111-SP1",
    instrument_id := "111111", specimen_id := "SP1" }

/-- Witness for the C1 theorem on a concrete one-record input. -/
theorem filter_non_unique_specimen_ids_correct_witness :
    (repA ∈ (filter_non_unique_specimen_ids [repA]).1 ↔
      (distinctInstruments [repA] repA.specimen_id).length = 1) ∧
    ((distinctInstruments [repA] repA.specimen_id).length > 1 →
      repA ∈ (filter_non_unique_specimen_ids [repA]).2 repA.specimen_id ∧
      repA ∉ (filter_non_unique_specimen_ids [repA]).1) ∧
    (repA ∈ (filter_non_unique_specimen_ids [repA]).1 ∨
      repA ∈ (filter_non_unique_specimen_ids [repA]).2 repA.specimen_id) ∧
    ¬(repA ∈ (filter_non_unique_specimen_ids [repA]).1 ∧
      repA ∈ (filter_non_unique_specimen_ids [repA]).2 repA.specimen_id) :=
  filter_non_unique_specimen_ids_correct [repA] repA (by decide)

/-- One DNAnexus file description as consumed by the classification step
of check_archival_state (dx_manage.py): the describe call's
archivalState together with the file ID. -/
structure DxFile where
  id : String
  archivalState : String
deriving DecidableEq

/-- Embedding of the classification step of dx_manage.check_archival_state:
the three list comprehensions over the found file details. -/
def check_archival_state (file_details : List DxFile) :
    List DxFile × List DxFile × List DxFile :=
  (file_details.filter (fun x => x.archivalState = "live"),
   file_details.filter (fun x => x.archivalState = "unarchiving"),
   file_details.filter (fun x => x.archivalState = "archived"))

/-- C5 (amended): every found file whose reported archivalState is one of
live, unarchiving or archived is placed in exactly the corresponding
returned list; a file reporting any other state appears in none of the
three lists. -/
theorem check_archival_state_classifies (file_details : List DxFile)
    (f : DxFile) (h : f ∈ file_details) :
    (f ∈ (check_archival_state file_details).1 ↔ f.archivalState = "live") ∧
    (f ∈ (check_archival_state file_details).2.1 ↔
      f.archivalState = "unarchiving") ∧
    (f ∈ (check_archival_state file_details).2.2 ↔
      f.archivalState = "archived") := by
  unfold check_archival_state
  simp [List.mem_filter, h]

/-- Concrete file in a fourth archival state, refuting C5 as stated. -/
def fileArchival : DxFile := { id := "file-A", archivalState := "archival" }

/-- Counterexample to C5 as stated: a found file whose reported
archivalState is the fourth platform state "archival" is returned in none
of the three lists, so the three lists do not partition all found files. -/
theorem check_archival_state_counterexample :
    fileArchival ∈ [fileArchival] ∧
    fileArchival ∉ (check_archival_state [fileArchival]).1 ∧
    fileArchival ∉ (check_archival_state [fileArchival]).2.1 ∧
    fileArchival ∉ (check_archival_state [fileArchival]).2.2 := by
  decide

/-- Concrete live file used to witness the amended C5 theorem. -/
def fileLive : DxFile := { id := "file-B", archivalState := "live" }

/-- Witness for the amended C5 theorem on a concrete one-file input. -/
theorem check_archival_state_classifies_witness :
    (fileLive ∈ (check_archival_state [fileLive]).1 ↔
      fileLive.archivalState = "live") ∧
    (fileLive ∈ (check_archival_state [fileLive]).2.1 ↔
      fileLive.archivalState = "unarchiving") ∧
    (fileLive ∈ (check_archival_state [fileLive]).2.2 ↔
      fileLive.archivalState = "archived") :=
  check_archival_state_classifies [fileLive] fileLive (by decide)

/-- One merged sample record as passed to limit_samples, validate_test_codes
and write_manifest: identifiers plus Clarity test codes and booked date
(dates encoded as Nat yyyymmdd, order-isomorphic to datetime here). -/
structure SampleData where
  project : String
  sample : String
  instrument_id : String
  specimen_id : String
  codes : List String
  date : Nat
deriving DecidableEq

/-- The sort key of limit_samples: compare samples by booked date. -/
def dateLe (a b : SampleData) : Prop := a.date ≤ b.date

instance : DecidableRel dateLe := fun a b => Nat.decLe a.date b.date

instance : IsTotal SampleData dateLe := ⟨fun a b => Nat.le_total a.date b.date⟩

instance : IsTrans SampleData dateLe :=
  ⟨fun _ _ _ h1 h2 => Nat.le_trans h1 h2⟩

/-- Python truthiness of the limit argument: `if limit:` is taken for any
value other than None and 0. -/
def limitActive : Option Nat → Bool
  | none => false
  | some l => decide (l ≠ 0)

/-- The selection loop of limit_samples: break once the limit is hit,
skip samples outside the inclusive date range, otherwise select. -/
def selectLoop : List SampleData → Nat → Nat → Nat → Option Nat →
    List SampleData
  | [], _, _, _, _ => []
  | s :: rest, selected, startV, endV, limit =>
    if limitActive limit = true ∧ limit.getD 0 ≤ selected then []
    else if startV ≤ s.date ∧ s.date ≤ endV then
      s :: selectLoop rest (selected + 1) startV endV limit
    else selectLoop rest selected startV endV limit

/-- Start bound of limit_samples: parse it when given, else default to
datetime(1970, 1, 1), i.e. 19700101. -/
def resolveStartDate : Option String → Except PyErr Nat
  | some s => date_str_to_datetime s
  | none => .ok 19700101

/-- Embedding of utils.limit_samples. The end bound defaults to the
current date (todayStr, the strftime of datetime.now), and the default is
re-parsed through date_str_to_datetime exactly as the code does. The
summary print indexes samples[0], an IndexError on an empty list; running
out of samples after filtering calls exit(0), embedded as `.ok none`. -/
def limit_samples (samples : List SampleData) (limit : Option Nat)
    (start0 end0 : Option String) (todayStr : String) :
    Except PyErr (Option (List SampleData)) :=
  match resolveStartDate start0 with
  | .error e => .error e
  | .ok startV =>
    match date_str_to_datetime (end0.getD todayStr) with
    | .error e => .error e
    | .ok endV =>
      match List.insertionSort dateLe samples with
      | [] => .error .indexError
      | s0 :: srest =>
        let selected := selectLoop (s0 :: srest) 0 startV endV limit
        if selected = [] then .ok none else .ok (some selected)

/-- The date shape described by the spec: a 6-digit yymmdd string with
year digits 20 through 29 (first char 2, second a digit), month matching
00-09 or 10-12, and day matching 00-39. -/
def validYymmdd (l : List Char) : Prop :=
  ∃ c0 c1 c2 c3 c4 c5, l = [c0, c1, c2, c3, c4, c5] ∧
    c0 = '2' ∧ c1.isDigit = true ∧
    ((c2 = '0' ∧ c3.isDigit = true) ∨
      (c2 = '1' ∧ (c3 = '0' ∨ c3 = '1' ∨ c3 = '2'))) ∧
    (c4 = '0' ∨ c4 = '1' ∨ c4 = '2' ∨ c4 = '3') ∧
    c5.isDigit = true

lemma date_err_of_not_match (s : String)
    (h : yymmddMatch s.data = false) :
    date_str_to_datetime s = .error .assertionError := by
  simp [date_str_to_datetime, h]

lemma validYymmdd_of_match (l : List Char) (h : yymmddMatch l = true) :
    validYymmdd l := by
  rcases l with _ | ⟨c0, l⟩
  · exact Bool.noConfusion h
  rcases l with _ | ⟨c1, l⟩
  · exact Bool.noConfusion h
  rcases l with _ | ⟨c2, l⟩
  · exact Bool.noConfusion h
  rcases l with _ | ⟨c3, l⟩
  · exact Bool.noConfusion h
  rcases l with _ | ⟨c4, l⟩
  · exact Bool.noConfusion h
  rcases l with _ | ⟨c5, l⟩
  · exact Bool.noConfusion h
  rcases l with _ | ⟨c6, l⟩
  · simp only [yymmddMatch, Bool.and_eq_true, Bool.or_eq_true,
      beq_iff_eq] at h
    obtain ⟨⟨⟨⟨h0, h1⟩, hmo⟩, hda⟩, h5⟩ := h
    exact ⟨c0, c1, c2, c3, c4, c5, rfl, h0, h1, by tauto, by tauto, h5⟩
  · exact Bool.noConfusion h

lemma date_err_of_not_valid (s : String) (h : ¬ validYymmdd s.data) :
    date_str_to_datetime s = .error .assertionError := by
  cases hb : yymmddMatch s.data with
  | false => exact date_err_of_not_match s hb
  | true => exact absurd (validYymmdd_of_match s.data hb) h

lemma date_err_of_bad_year (s : String) (c0 c1 : Char) (rest : List Char)
    (hdata : s.data = c0 :: c1 :: rest)
    (hno : ¬(c0 = '2' ∧ c1.isDigit = true)) :
    date_str_to_datetime s = .error .assertionError := by
  refine date_err_of_not_valid s ?_
  rintro ⟨d0, d1, d2, d3, d4, d5, heq, h0, h1, -⟩
  rw [hdata] at heq
  injection heq with e0 heq
  injection heq with e1 heq
  subst e0
  subst e1
  exact hno ⟨h0, h1⟩

/-- C10: date_str_to_datetime fails with an AssertionError on every input
whose characters do not form a 6-digit yymmdd date with year digits 20-29,
month 00-09 or 10-12 and day 00-39; in particular, any input whose first
two characters do not spell a year in 2020-2029 is rejected, and a start
or end bound with such a year passed to limit_samples makes the run abort
with that AssertionError rather than being parsed. -/
theorem date_str_to_datetime_rejects_invalid :
    (∀ s : String, ¬ validYymmdd s.data →
      date_str_to_datetime s = .error .assertionError) ∧
    (∀ (s : String) (c0 c1 : Char) (rest : List Char),
      s.data = c0 :: c1 :: rest → ¬(c0 = '2' ∧ c1.isDigit = true) →
      date_str_to_datetime s = .error .assertionError) ∧
    (∀ (samples : List SampleData) (limit : Option Nat)
      (end0 : Option String) (todayStr : String) (s : String)
      (c0 c1 : Char) (rest : List Char),
      s.data = c0 :: c1 :: rest → ¬(c0 = '2' ∧ c1.isDigit = true) →
      limit_samples samples limit (some s) end0 todayStr =
        .error .assertionError) ∧
    (∀ (samples : List SampleData) (limit : Option Nat)
      (todayStr : String) (s : String) (c0 c1 : Char) (rest : List Char),
      s.data = c0 :: c1 :: rest → ¬(c0 = '2' ∧ c1.isDigit = true) →
      limit_samples samples limit none (some s) todayStr =
        .error .assertionError) := by
  refine ⟨date_err_of_not_valid, date_err_of_bad_year, ?_, ?_⟩
  · intro samples limit end0 todayStr s c0 c1 rest hdata hno
    simp [limit_samples, resolveStartDate,
      date_err_of_bad_year s c0 c1 rest hdata hno]
  · intro samples limit todayStr s c0 c1 rest hdata hno
    simp [limit_samples, resolveStartDate, Option.getD,
      date_err_of_bad_year s c0 c1 rest hdata hno]

/-- Witness for the C10 theorem at concrete inputs: the empty string and
strings with years 1990 and 2030 are all rejected with AssertionError,
also when given to limit_samples as a start or end bound. -/
theorem date_str_to_datetime_rejects_invalid_witness :
    date_str_to_datetime "" = .error .assertionError ∧
    date_str_to_datetime "199001" = .error .assertionError ∧
    limit_samples [] none (some "300101") none "261011" =
      .error .assertionError ∧
    limit_samples [] none none (some "300101") "261011" =
      .error .assertionError :=
  ⟨date_str_to_datetime_rejects_invalid.1 ""
    (fun h => by
      rcases h with ⟨c0, c1, c2, c3, c4, c5, heq, -⟩
      exact List.noConfusion heq),
   date_str_to_datetime_rejects_invalid.2.1 "199001" '1' '9'
     ['9', '0', '0', '1'] rfl (by decide),
   date_str_to_datetime_rejects_invalid.2.2.1 [] none none "261011"
     "300101" '3' '0' ['0', '1', '0', '1'] rfl (by decide),
   date_str_to_datetime_rejects_invalid.2.2.2 [] none "261011"
     "300101" '3' '0' ['0', '1', '0', '1'] rfl (by decide)⟩

lemma selectLoop_take (startV endV k : Nat) (hk : k ≠ 0)
    (l : List SampleData) :
    ∀ (c : Nat), (∀ s ∈ l, startV ≤ s.date ∧ s.date ≤ endV) →
      selectLoop l c startV endV (some k) = l.take (k - c) := by
  induction l with
  | nil => intro c _; simp [selectLoop]
  | cons s rest ih =>
    intro c hin
    have hact : limitActive (some k) = true := by simp [limitActive, hk]
    unfold selectLoop
    by_cases hc : k ≤ c
    · rw [if_pos ⟨hact, hc⟩]
      have hkc : k - c = 0 := by omega
      rw [hkc, List.take_zero]
    · rw [if_neg (fun hand => hc hand.2)]
      rw [if_pos (hin s (List.mem_cons_self s rest))]
      rw [ih (c + 1) (fun x hx => hin x (List.mem_cons_of_mem _ hx))]
      have hkc : k - c = (k - (c + 1)) + 1 := by omega
      rw [hkc, List.take_succ_cons]

/-- C4 (amended): for every non-empty sample list whose booked dates all
lie between 1970-01-01 and the current date, and every limit k with
1 ≤ k ≤ length, limit_samples with no date range returns exactly k
records, and the date of every returned record is at most the date of
every excluded record (oldest-first retention after the sort). -/
theorem limit_samples_oldest_k (samples : List SampleData) (k : Nat)
    (todayStr : String) (tv : Nat)
    (hk1 : 1 ≤ k) (hk2 : k ≤ samples.length)
    (htoday : date_str_to_datetime todayStr = .ok tv)
    (hdates : ∀ s ∈ samples, 19700101 ≤ s.date ∧ s.date ≤ tv) :
    ∃ l, limit_samples samples (some k) none none todayStr =
        .ok (some l) ∧
      l.length = k ∧
      ∀ r ∈ l, ∀ q ∈ samples, q ∉ l → r.date ≤ q.date := by
  obtain ⟨s0, srest, hs⟩ :
      ∃ s0 srest, List.insertionSort dateLe samples = s0 :: srest := by
    rcases hsor : List.insertionSort dateLe samples with _ | ⟨a, b⟩
    · exfalso
      have hl := (List.perm_insertionSort dateLe samples).length_eq
      rw [hsor] at hl
      simp at hl
      omega
    · exact ⟨a, b, rfl⟩
  have hin : ∀ s ∈ (s0 :: srest), 19700101 ≤ s.date ∧ s.date ≤ tv := by
    intro s hsmem
    refine hdates s ((List.perm_insertionSort dateLe samples).mem_iff.mp ?_)
    rw [hs]
    exact hsmem
  have htake := selectLoop_take 19700101 tv k (by omega) (s0 :: srest) 0 hin
  rw [Nat.sub_zero] at htake
  have hlensort : (s0 :: srest).length = samples.length := by
    rw [← hs]
    exact (List.perm_insertionSort dateLe samples).length_eq
  have hlentake : ((s0 :: srest).take k).length = k := by
    rw [List.length_take, hlensort]
    exact min_eq_left hk2
  have hne : (s0 :: srest).take k ≠ [] := by
    intro h0
    rw [h0] at hlentake
    simp at hlentake
    omega
  refine ⟨(s0 :: srest).take k, ?_, hlentake, ?_⟩
  · simp only [limit_samples, resolveStartDate, Option.getD, htoday, hs,
      htake]
    rw [if_neg hne]
  · intro r hr q hq hqnot
    have hsorted : List.Sorted dateLe (s0 :: srest) := by
      rw [← hs]
      exact List.sorted_insertionSort dateLe samples
    have hpair : List.Pairwise dateLe
        ((s0 :: srest).take k ++ (s0 :: srest).drop k) := by
      rw [List.take_append_drop]
      exact hsorted
    have hcross := (List.pairwise_append.mp hpair).2.2
    have hqsort : q ∈ (s0 :: srest) := by
      rw [← hs]
      exact (List.perm_insertionSort dateLe samples).mem_iff.mpr hq
    have hqsplit : q ∈ (s0 :: srest).take k ++ (s0 :: srest).drop k := by
      rw [List.take_append_drop]
      exact hqsort
    rcases List.mem_append.mp hqsplit with hq1 | hq2
    · exact absurd hq1 hqnot
    · exact hcross r hr q hq2

/-- Concrete sample records used in the limit_samples theorems. -/
def sdOld : SampleData :=
  { project := "project-a", sample := "111111-SP1",
    instrument_id := "111111", specimen_id := "SP1",
    codes := ["R134.1"], date := 20230101 }

/-- A later-booked concrete sample record. -/
def sdNew : SampleData :=
  { project := "project-b", sample := "222222-SP2",
    instrument_id := "222222", specimen_id := "SP2",
    codes := ["R208.1"], date := 20240101 }

/-- Witness for the amended C4 theorem on a concrete two-sample list with
limit 1: the oldest record is retained. -/
theorem limit_samples_oldest_k_witness :
    ∃ l, limit_samples [sdNew, sdOld] (some 1) none none "261011" =
        .ok (some l) ∧
      l.length = 1 ∧
      ∀ r ∈ l, ∀ q ∈ [sdNew, sdOld], q ∉ l → r.date ≤ q.date :=
  limit_samples_oldest_k [sdNew, sdOld] 1 "261011" 20261011
    (by decide) (by decide) rfl (by decide)

/-- Counterexample to C4 as stated: with limit k = 0 (an integer with
k ≤ length of the list) Python's `if limit:` treats the limit as unset,
so limit_samples returns 1 record instead of exactly k = 0. -/
theorem limit_samples_zero_limit_counterexample :
    (0 : Nat) ≤ [sdOld].length ∧
    limit_samples [sdOld] (some 0) none none "261011" =
      .ok (some [sdOld]) ∧
    [sdOld].length ≠ 0 :=
  ⟨by decide, rfl, by decide⟩

/-- C8 (amended): for every non-empty sample list whose start and end
bounds resolve successfully, if zero samples remain after the limit and
date-range filtering then limit_samples returns the clean-exit marker
(exit code 0), not an exception. -/
theorem limit_samples_empty_filter_clean_exit (samples : List SampleData)
    (limit : Option Nat) (start0 end0 : Option String) (todayStr : String)
    (startV endV : Nat)
    (hne : samples ≠ [])
    (hs : resolveStartDate start0 = .ok startV)
    (he : date_str_to_datetime (end0.getD todayStr) = .ok endV)
    (hzero : selectLoop (List.insertionSort dateLe samples) 0
      startV endV limit = []) :
    limit_samples samples limit start0 end0 todayStr = .ok none := by
  obtain ⟨s0, srest, hsor⟩ :
      ∃ s0 srest, List.insertionSort dateLe samples = s0 :: srest := by
    rcases hsor : List.insertionSort dateLe samples with _ | ⟨a, b⟩
    · exfalso
      have hl := (List.perm_insertionSort dateLe samples).length_eq
      rw [hsor] at hl
      simp at hl
      exact hne (List.eq_nil_of_length_eq_zero hl.symm)
    · exact ⟨a, b, rfl⟩
  rw [hsor] at hzero
  simp [limit_samples, hs, he, hsor, hzero]

/-- Witness for the amended C8 theorem: one sample booked before the
supplied start bound leaves nothing to run, and the function returns the
clean-exit marker. -/
theorem limit_samples_empty_filter_clean_exit_witness :
    limit_samples [sdOld] none (some "250101") none "261011" = .ok none :=
  limit_samples_empty_filter_clean_exit [sdOld] none (some "250101") none
    "261011" 20250101 20261011 (by decide) rfl rfl rfl

/-- Counterexample to C8 as stated: on the empty sample list (zero
samples trivially remain after filtering) the summary print indexes
samples[0] and raises an IndexError instead of exiting cleanly. -/
theorem limit_samples_empty_input_counterexample :
    limit_samples [] none none none "261011" = .error .indexError := rfl

/-- Python regex \w on the ASCII names in use: letters, digits, underscore. -/
def isWordChar (c : Char) : Bool := c.isAlphanum || c = '_'

/-- The character class [\w\-] of the report-name pattern. -/
def sigma2Char (c : Char) : Bool := isWordChar c || c = '-'

/-- The character class [\w\-\.:] of the report-name pattern. -/
def sigma3Char (c : Char) : Bool := sigma2Char c || c = '.' || c = ':'

/-- Recognises the literal \.xlsx of the pattern (trailing characters are
allowed, as re.match only anchors the start). -/
def startsDotXlsx : List Char → Bool
  | '.' :: 'x' :: 'l' :: 's' :: 'x' :: _ => true
  | _ => false

/-- Recognises [\w\-\.:]+\.xlsx at the head of the character list. -/
def phase3 : List Char → Bool
  | [] => false
  | c :: rest => sigma3Char c && (startsDotXlsx rest || phase3 rest)

/-- Recognises _[\w\-\.:]+\.xlsx at the head of the character list. -/
def afterUnderscore : List Char → Bool
  | '_' :: r => phase3 r
  | _ => false

/-- Recognises [\w\-]+_[\w\-\.:]+\.xlsx at the head of the list. -/
def phase2 : List Char → Bool
  | [] => false
  | c :: rest => sigma2Char c && (afterUnderscore rest || phase2 rest)

/-- Recognises -[\w\-]+_[\w\-\.:]+\.xlsx at the head of the list. -/
def afterDash : List Char → Bool
  | '-' :: r => phase2 r
  | _ => false

/-- Recognises [\w]+-[\w\-]+_[\w\-\.:]+\.xlsx at the head of the list. -/
def phase1 : List Char → Bool
  | [] => false
  | c :: rest => isWordChar c && (afterDash rest || phase1 rest)

/-- Embedding of re.match on the report-name pattern of
parse_sample_identifiers (match anchors only the start of the name). -/
def reportNameMatch (s : String) : Bool := phase1 s.data

/-- Characters before the first occurrence of sep: Python split(sep)[0]. -/
def takeUntil (sep : Char) : List Char → List Char
  | [] => []
  | c :: rest => if c = sep then [] else c :: takeUntil sep rest

/-- Characters after the first occurrence of sep (empty if sep absent). -/
def dropThrough (sep : Char) : List Char → List Char
  | [] => []
  | c :: rest => if c = sep then rest else dropThrough sep rest

/-- Python name.split(sep)[0] on names containing sep. -/
def splitSeg0 (sep : Char) (s : String) : String :=
  String.mk (takeUntil sep s.data)

/-- Python name.split(sep)[1] on names containing sep. -/
def splitSeg1 (sep : Char) (s : String) : String :=
  String.mk (takeUntil sep (dropThrough sep s.data))

/-- One xlsx report file description: the containing project and the
describe name, the fields parse_sample_identifiers reads. -/
structure ReportFile where
  project : String
  name : String
deriving DecidableEq

/-- The per-report record built by parse_sample_identifiers: project,
sample = name.split('_')[0], instrument ID = name.split('-')[0] and
specimen ID = name.split('-')[1]. -/
def extractReport (x : ReportFile) : Report :=
  { project := x.project
    sample := splitSeg0 '_' x.name
    instrument_id := splitSeg0 '-' x.name
    specimen_id := splitSeg1 '-' x.name }

/-- Lexicographic comparison of char lists by code point, the order
Python string comparison uses for sorted(). -/
def charListLe : List Char → List Char → Bool
  | [], _ => true
  | _ :: _, [] => false
  | a :: as, b :: bs =>
    if a.toNat < b.toNat then true
    else if a.toNat = b.toNat then charListLe as bs
    else false

/-- The sort key of parse_sample_identifiers: order records by their
sample name. -/
def sampleLe (a b : Report) : Prop :=
  charListLe a.sample.data b.sample.data = true

instance : DecidableRel sampleLe :=
  fun _a _b => inferInstanceAs (Decidable (_ = true))

/-- Embedding of utils.parse_sample_identifiers: reject the whole input if
any name fails the pattern, else build the records, dedup them (the
set-of-frozensets step) and sort by sample name (Python sorted is a
stable sort, extensionally equal to insertion sort with this order). -/
def parse_sample_identifiers (reports : List ReportFile) :
    Except String (List Report) :=
  let invalid := (reports.filter
    (fun x => !reportNameMatch x.name)).map (fun x => x.name)
  if invalid ≠ [] then
    .error ("ERROR: xlsx reports found that specimen and instrument IDs "
      ++ "could not be parsed from: " ++ String.intercalate ", " invalid)
  else
    .ok (List.insertionSort sampleLe ((reports.map extractReport).dedup))

/-- C7: when parse_sample_identifiers accepts its input, it returns
exactly one record per distinct (project, sample, instrument_id,
specimen_id) tuple derivable from the input, however many duplicate
entries the input contains: the output is duplicate-free, its members are
exactly the extracted tuples, and each extracted tuple occurs once. -/
theorem parse_sample_identifiers_dedups (reports : List ReportFile)
    (out : List Report) (h : parse_sample_identifiers reports = .ok out) :
    out.Nodup ∧
    (∀ t : Report, t ∈ out ↔ ∃ x ∈ reports, extractReport x = t) ∧
    (∀ t : Report, (∃ x ∈ reports, extractReport x = t) →
      out.count t = 1) := by
  unfold parse_sample_identifiers at h
  by_cases hinv : ((reports.filter
      (fun x => !reportNameMatch x.name)).map (fun x => x.name)) ≠ []
  · rw [if_pos hinv] at h
    exact absurd h (by simp)
  · rw [if_neg hinv] at h
    injection h with h2
    subst h2
    have hperm :=
      List.perm_insertionSort sampleLe ((reports.map extractReport).dedup)
    have hnd : (List.insertionSort sampleLe
        ((reports.map extractReport).dedup)).Nodup :=
      hperm.nodup_iff.mpr (List.nodup_dedup _)
    have hmem : ∀ t : Report,
        t ∈ List.insertionSort sampleLe ((reports.map extractReport).dedup)
          ↔ ∃ x ∈ reports, extractReport x = t := by
      intro t
      rw [hperm.mem_iff, List.mem_dedup, List.mem_map]
    exact ⟨hnd, hmem, fun t ht =>
      List.count_eq_one_of_mem hnd ((hmem t).mpr ht)⟩

/-- Concrete report file with a pattern-conforming name. -/
def rf1 : ReportFile := { project := "project-a", name := "A1-B2_C.xlsx" }

/-- Witness for the C7 theorem: a valid single-file input parses and the
conclusion holds for its output. -/
theorem parse_sample_identifiers_dedups_witness :
    [extractReport rf1].Nodup ∧
    (∀ t : Report, t ∈ [extractReport rf1] ↔
      ∃ x ∈ [rf1], extractReport x = t) ∧
    (∀ t : Report, (∃ x ∈ [rf1], extractReport x = t) →
      [extractReport rf1].count t = 1) :=
  parse_sample_identifiers_dedups [rf1] [extractReport rf1] rfl

/-- One genepanels catalog row: clinical indication and panel name. -/
structure GenepanelRow where
  indication : String
  panel_name : String
deriving DecidableEq

/-- A genepanels row with the derived test_code column added. -/
structure GenepanelRow3 where
  test_code : String
  indication : String
  panel_name : String
deriving DecidableEq

/-- Recognises \.[\d]+ at the head of the list (one digit suffices for a
match; trailing characters are unconstrained under re.match). -/
def dotDigit : List Char → Bool
  | '.' :: c :: _ => c.isDigit
  | _ => false

/-- Recognises [\d]+\.[\d]+ at the head of the list. -/
def digitsThenDotDigit : List Char → Bool
  | [] => false
  | c :: rest => c.isDigit && (dotDigit rest || digitsThenDotDigit rest)

/-- Embedding of re.match on [RC][\d]+\.[\d]+, the prefix check deciding
whether an indication starts with an R/C test code. -/
def rcCodeMatch : List Char → Bool
  | c :: rest => (c == 'R' || c == 'C') && digitsThenDotDigit rest
  | [] => false

/-- The derived test code of an indication: the part before the first
underscore when the indication starts with an R/C code, else the whole
indication verbatim. -/
def testCodeOf (indication : String) : String :=
  if rcCodeMatch indication.data then splitSeg0 '_' indication
  else indication

/-- A catalog row extended with its derived test_code column. -/
def withTestCode (r : GenepanelRow) : GenepanelRow3 :=
  { test_code := testCodeOf r.indication, indication := r.indication,
    panel_name := r.panel_name }

/-- The indications of all rows carrying the given test code, the
code_rows['indication'].tolist() of the sense check. -/
def codeIndications (gp : List GenepanelRow3) (code : String) :
    List String :=
  (gp.filter (fun r => decide (r.test_code = code))).map
    (fun r => r.indication)

/-- The sense-check condition: the rows of this code carry more than one
distinct indication. -/
def badCode (gp : List GenepanelRow3) (code : String) : Bool :=
  decide ((codeIndications gp code).dedup.length > 1)

/-- The RuntimeError message raised by split_genepanels_test_codes. -/
def splitErrMsg (code : String) (indications : List String) : String :=
  "Test code " ++ code ++
    " linked to more than one indication in genepanels!\n\t" ++
    String.intercalate ", " indications

/-- Embedding of utils.split_genepanels_test_codes: derive the test_code
column, then raise on the first test code whose rows carry more than one
distinct indication, else return the extended rows. -/
def split_genepanels_test_codes (genepanels : List GenepanelRow) :
    Except String (List GenepanelRow3) :=
  let gp := genepanels.map withTestCode
  match ((gp.map (fun r => r.test_code)).dedup).find? (badCode gp) with
  | some code => .error (splitErrMsg code (codeIndications gp code))
  | none => .ok gp

lemma mem_codeIndications (gp : List GenepanelRow3) (code a : String) :
    a ∈ codeIndications gp code ↔
      ∃ r ∈ gp, r.test_code = code ∧ r.indication = a := by
  unfold codeIndications
  simp only [List.mem_map, List.mem_filter, decide_eq_true_eq]
  constructor
  · rintro ⟨r, ⟨hr, hc⟩, ha⟩
    exact ⟨r, hr, hc, ha⟩
  · rintro ⟨r, hr, hc, ha⟩
    exact ⟨r, ⟨hr, hc⟩, ha⟩

lemma two_distinct_mem_one_lt_length {α : Type} {a b : α} {l : List α}
    (ha : a ∈ l) (hb : b ∈ l) (hne : a ≠ b) : 1 < l.length := by
  cases l with
  | nil => cases ha
  | cons x xs =>
    cases xs with
    | nil =>
      rw [List.mem_singleton] at ha hb
      exact absurd (ha.trans hb.symm) hne
    | cons y ys =>
      simp only [List.length_cons]
      omega

lemma exists_two_distinct_of_nodup {α : Type} {l : List α}
    (hnd : l.Nodup) (hl : 1 < l.length) : ∃ a ∈ l, ∃ b ∈ l, a ≠ b := by
  cases l with
  | nil => simp at hl
  | cons x xs =>
    cases xs with
    | nil => simp at hl
    | cons y ys =>
      refine ⟨x, List.mem_cons_self x _, y,
        List.mem_cons_of_mem x (List.mem_cons_self y _), ?_⟩
      intro hxy
      subst hxy
      exact (List.nodup_cons.mp hnd).1 (List.mem_cons_self x _)

/-- C6: if two catalog rows share the same derived test code but carry
different indications, split_genepanels_test_codes raises the error
naming an offending test code; if every derived test code maps to one
distinct indication, it returns the rows with the test_code column
added. -/
theorem split_genepanels_test_codes_unique (genepanels : List GenepanelRow) :
    ((∃ r1 ∈ genepanels.map withTestCode, ∃ r2 ∈ genepanels.map withTestCode,
        r1.test_code = r2.test_code ∧ r1.indication ≠ r2.indication) →
      ∃ code, split_genepanels_test_codes genepanels =
          .error (splitErrMsg code
            (codeIndications (genepanels.map withTestCode) code)) ∧
        ∃ r1 ∈ genepanels.map withTestCode,
          ∃ r2 ∈ genepanels.map withTestCode,
            r1.test_code = code ∧ r2.test_code = code ∧
              r1.indication ≠ r2.indication) ∧
    ((∀ r1 ∈ genepanels.map withTestCode, ∀ r2 ∈ genepanels.map withTestCode,
        r1.test_code = r2.test_code → r1.indication = r2.indication) →
      split_genepanels_test_codes genepanels =
        .ok (genepanels.map withTestCode)) := by
  constructor
  · rintro ⟨r1, hr1, r2, hr2, hcode, hind⟩
    have hmemcode : r1.test_code ∈
        ((genepanels.map withTestCode).map (fun r => r.test_code)).dedup := by
      rw [List.mem_dedup, List.mem_map]
      exact ⟨r1, hr1, rfl⟩
    have hbad : badCode (genepanels.map withTestCode) r1.test_code = true := by
      unfold badCode
      rw [decide_eq_true_eq]
      refine two_distinct_mem_one_lt_length
        (a := r1.indication) (b := r2.indication) ?_ ?_ hind
      · rw [List.mem_dedup, mem_codeIndications]
        exact ⟨r1, hr1, rfl, rfl⟩
      · rw [List.mem_dedup, mem_codeIndications]
        exact ⟨r2, hr2, hcode.symm, rfl⟩
    have hsome : (((genepanels.map withTestCode).map
        (fun r => r.test_code)).dedup.find?
          (badCode (genepanels.map withTestCode))).isSome := by
      rw [List.find?_isSome]
      exact ⟨r1.test_code, hmemcode, hbad⟩
    obtain ⟨c, hfind⟩ := Option.isSome_iff_exists.mp hsome
    have hpc : badCode (genepanels.map withTestCode) c = true :=
      List.find?_some hfind
    unfold badCode at hpc
    rw [decide_eq_true_eq] at hpc
    obtain ⟨a, haa, b, hbb, hab⟩ :=
      exists_two_distinct_of_nodup (List.nodup_dedup _) hpc
    rw [List.mem_dedup, mem_codeIndications] at haa hbb
    obtain ⟨ra, hra, hrac, hraa⟩ := haa
    obtain ⟨rb, hrb, hrbc, hrbb⟩ := hbb
    refine ⟨c, ?_, ra, hra, rb, hrb, hrac, hrbc, ?_⟩
    · simp only [split_genepanels_test_codes]
      rw [hfind]
    · rw [hraa, hrbb]
      exact hab
  · intro huni
    have hnone : (((genepanels.map withTestCode).map
        (fun r => r.test_code)).dedup.find?
          (badCode (genepanels.map withTestCode))) = none := by
      rw [List.find?_eq_none]
      intro code _ hbad
      unfold badCode at hbad
      rw [decide_eq_true_eq] at hbad
      obtain ⟨a, haa, b, hbb, hab⟩ :=
        exists_two_distinct_of_nodup (List.nodup_dedup _) hbad
      rw [List.mem_dedup, mem_codeIndications] at haa hbb
      obtain ⟨ra, hra, hrac, hraa⟩ := haa
      obtain ⟨rb, hrb, hrbc, hrbb⟩ := hbb
      refine hab ?_
      rw [← hraa, ← hrbb]
      exact huni ra hra rb hrb (hrac.trans hrbc.symm)
    simp only [split_genepanels_test_codes]
    rw [hnone]

/-- Concrete genepanels row with a well-formed R code indication. -/
def gpRow1 : GenepanelRow :=
  { indication := "R134.1_CI1", panel_name := "Panel1" }

/-- Witness for the C6 theorem: a one-row catalog has no duplicated test
code, so the split returns the extended rows. -/
theorem split_genepanels_test_codes_unique_witness :
    split_genepanels_test_codes [gpRow1] = .ok ([gpRow1].map withTestCode) :=
  (split_genepanels_test_codes_unique [gpRow1]).2 (by decide)

/-- Recognises HGNC:[\d]+ at the head of the character list (one digit
suffices for re.search to succeed). -/
def hgncAt : List Char → Bool
  | 'H' :: 'G' :: 'N' :: 'C' :: ':' :: d :: _ => d.isDigit
  | _ => false

/-- Embedding of re.search on HGNC:[\d]+: the pattern may start at any
position of the string. -/
def hgncSearch : List Char → Bool
  | [] => false
  | c :: rest => hgncAt (c :: rest) || hgncSearch rest

/-- Embedding of test.lower().replace(' ', '') == 'researchuse'. -/
def researchUseCode (t : String) : Bool :=
  decide (((t.data.map Char.toLower).filter (fun c => !(c == ' '))) =
    "researchuse".data)

/-- The acceptance test of validate_test_codes: the code is a catalog
test code or an HGNC:<digits> request. -/
def acceptCode (T : List String) (t : String) : Bool :=
  decide (t ∈ T) || hgncSearch t.data

/-- The inner loop of validate_test_codes over one sample's codes: split
them into accepted codes and invalid codes, silently dropping research-use
pseudo-codes. -/
def partitionCodes (T : List String) : List String → List String × List String
  | [] => ([], [])
  | t :: rest =>
    let acc := partitionCodes T rest
    if acceptCode T t then (t :: acc.1, acc.2)
    else if researchUseCode t then acc
    else (acc.1, t :: acc.2)

/-- Lexicographic string order by code point, as Python sorted() uses. -/
def strLe (a b : String) : Prop := charListLe a.data b.data = true

instance : DecidableRel strLe :=
  fun _a _b => inferInstanceAs (Decidable (_ = true))

/-- The genepanels_test_codes value of validate_test_codes:
sorted(set(genepanels['test_code'])). -/
def genepanelsTestCodes (gp : List GenepanelRow3) : List String :=
  List.insertionSort strLe ((gp.map (fun r => r.test_code)).dedup)

/-- One step of the outer loop of validate_test_codes over samples:
record the no-tests-booked error for empty bookings, else keep the sample
with its accepted codes (if any) and record its invalid codes (if any). -/
def validateStep (T : List String)
    (acc : List SampleData × (String → List String)) (sd : SampleData) :
    List SampleData × (String → List String) :=
  if sd.codes = [] then
    (acc.1, updFun acc.2 sd.sample
      (acc.2 sd.sample ++ ["No tests booked for sample"]))
  else
    let parts := partitionCodes T sd.codes
    let v := if parts.1 ≠ [] then acc.1 ++ [{ sd with codes := parts.1 }]
             else acc.1
    let i := if parts.2 ≠ [] then
               updFun acc.2 sd.sample (acc.2 sd.sample ++ parts.2)
             else acc.2
    (v, i)

/-- Embedding of utils.validate_test_codes: derive the valid test codes
from the genepanels catalog (propagating the catalog-corruption error),
then validate every sample's codes. -/
def validate_test_codes (all_sample_data : List SampleData)
    (genepanels : List GenepanelRow) :
    Except String (List SampleData × (String → List String)) :=
  match split_genepanels_test_codes genepanels with
  | .error e => .error e
  | .ok gp =>
    .ok (all_sample_data.foldl (validateStep (genepanelsTestCodes gp))
      ([], fun _ => []))

lemma partitionCodes_fst (T : List String) (codes : List String) :
    (partitionCodes T codes).1 = codes.filter (acceptCode T) := by
  induction codes with
  | nil => rfl
  | cons t rest ih =>
    cases ha : acceptCode T t with
    | true => simp [partitionCodes, List.filter_cons, ha, ih]
    | false =>
      cases hr : researchUseCode t with
      | true => simp [partitionCodes, List.filter_cons, ha, hr, ih]
      | false => simp [partitionCodes, List.filter_cons, ha, hr, ih]

lemma partitionCodes_snd (T : List String) (codes : List String) :
    (partitionCodes T codes).2 =
      codes.filter (fun c => !acceptCode T c && !researchUseCode c) := by
  induction codes with
  | nil => rfl
  | cons t rest ih =>
    cases ha : acceptCode T t with
    | true => simp [partitionCodes, List.filter_cons, ha, ih]
    | false =>
      cases hr : researchUseCode t with
      | true => simp [partitionCodes, List.filter_cons, ha, hr, ih]
      | false => simp [partitionCodes, List.filter_cons, ha, hr, ih]

lemma mem_genepanelsTestCodes (gp : List GenepanelRow3) (c : String) :
    c ∈ genepanelsTestCodes gp ↔ ∃ r ∈ gp, r.test_code = c := by
  unfold genepanelsTestCodes
  rw [(List.perm_insertionSort strLe _).mem_iff, List.mem_dedup,
    List.mem_map]

lemma mem_validateStep_snd (T : List String)
    (acc : List SampleData × (String → List String)) (sd : SampleData)
    (name c : String) :
    c ∈ (validateStep T acc sd).2 name ↔
      c ∈ acc.2 name ∨ (sd.sample = name ∧
        ((sd.codes = [] ∧ c = "No tests booked for sample") ∨
         (c ∈ sd.codes ∧ acceptCode T c = false ∧
           researchUseCode c = false))) := by
  unfold validateStep
  by_cases hempty : sd.codes = []
  · rw [if_pos hempty]
    dsimp only
    simp only [updFun]
    by_cases hname : name = sd.sample
    · subst hname
      rw [if_pos rfl]
      rw [List.mem_append, List.mem_singleton]
      constructor
      · rintro (hacc | rfl)
        · exact Or.inl hacc
        · exact Or.inr ⟨rfl, Or.inl ⟨hempty, rfl⟩⟩
      · rintro (hacc | ⟨_, (⟨_, rfl⟩ | ⟨hc, _⟩)⟩)
        · exact Or.inl hacc
        · exact Or.inr rfl
        · rw [hempty] at hc
          cases hc
    · rw [if_neg hname]
      constructor
      · exact Or.inl
      · rintro (hacc | ⟨hsn, _⟩)
        · exact hacc
        · exact absurd hsn.symm hname
  · rw [if_neg hempty]
    dsimp only
    by_cases hp2 : (partitionCodes T sd.codes).2 ≠ []
    · rw [if_pos hp2]
      simp only [updFun]
      by_cases hname : name = sd.sample
      · subst hname
        rw [if_pos rfl]
        rw [List.mem_append, partitionCodes_snd, List.mem_filter]
        simp only [Bool.and_eq_true, Bool.not_eq_true']
        constructor
        · rintro (hacc | ⟨hcodes, hA, hR⟩)
          · exact Or.inl hacc
          · exact Or.inr ⟨by trivial, Or.inr ⟨hcodes, hA, hR⟩⟩
        · rintro (hacc | ⟨_, (⟨he, _⟩ | ⟨hc, hA, hR⟩)⟩)
          · exact Or.inl hacc
          · exact absurd he hempty
          · exact Or.inr ⟨hc, hA, hR⟩
      · rw [if_neg hname]
        constructor
        · exact Or.inl
        · rintro (hacc | ⟨hsn, _⟩)
          · exact hacc
          · exact absurd hsn.symm hname
    · rw [if_neg hp2]
      rw [not_ne_iff] at hp2
      constructor
      · exact Or.inl
      · rintro (hacc | ⟨hsn, (⟨he, _⟩ | ⟨hc, hA, hR⟩)⟩)
        · exact hacc
        · exact absurd he hempty
        · exfalso
          have hcmem : c ∈ (partitionCodes T sd.codes).2 := by
            rw [partitionCodes_snd, List.mem_filter]
            simp only [Bool.and_eq_true, Bool.not_eq_true']
            exact ⟨hc, hA, hR⟩
          rw [hp2] at hcmem
          cases hcmem

lemma foldl_validateStep_fst (T : List String) (samples : List SampleData) :
    ∀ acc : List SampleData × (String → List String),
      (samples.foldl (validateStep T) acc).1 =
        acc.1 ++ samples.filterMap (fun sd =>
          if (sd.codes.filter (acceptCode T)) = [] then none
          else some { sd with codes := sd.codes.filter (acceptCode T) }) := by
  induction samples with
  | nil => intro acc; simp
  | cons sd rest ih =>
    intro acc
    rw [List.foldl_cons, ih (validateStep T acc sd)]
    by_cases hf : (sd.codes.filter (acceptCode T)) = []
    · have hstep : (validateStep T acc sd).1 = acc.1 := by
        unfold validateStep
        by_cases hempty : sd.codes = []
        · rw [if_pos hempty]
        · rw [if_neg hempty]
          dsimp only
          rw [partitionCodes_fst, hf]
          simp
      rw [hstep, List.filterMap_cons]
      simp [hf]
    · have hempty : sd.codes ≠ [] := by
        intro h0
        rw [h0] at hf
        simp at hf
      have hstep : (validateStep T acc sd).1 =
          acc.1 ++ [{ sd with codes := sd.codes.filter (acceptCode T) }] := by
        unfold validateStep
        rw [if_neg hempty]
        dsimp only
        rw [partitionCodes_fst, if_pos hf]
      rw [hstep, List.filterMap_cons]
      simp [hf]

lemma foldl_validateStep_snd (T : List String) (samples : List SampleData) :
    ∀ (acc : List SampleData × (String → List String)) (name c : String),
      c ∈ (samples.foldl (validateStep T) acc).2 name ↔
        c ∈ acc.2 name ∨ ∃ sd ∈ samples, sd.sample = name ∧
          ((sd.codes = [] ∧ c = "No tests booked for sample") ∨
           (c ∈ sd.codes ∧ acceptCode T c = false ∧
             researchUseCode c = false)) := by
  induction samples with
  | nil => intro acc name c; simp
  | cons sd rest ih =>
    intro acc name c
    rw [List.foldl_cons, ih (validateStep T acc sd), mem_validateStep_snd]
    constructor
    · rintro ((hacc | hsd) | ⟨sd2, hsd2, h2⟩)
      · exact Or.inl hacc
      · exact Or.inr ⟨sd, List.mem_cons_self sd rest, hsd⟩
      · exact Or.inr ⟨sd2, List.mem_cons_of_mem _ hsd2, h2⟩
    · rintro (hacc | ⟨sd2, hmem, h2⟩)
      · exact Or.inl (Or.inl hacc)
      · rcases List.mem_cons.mp hmem with rfl | hrest
        · exact Or.inl (Or.inr h2)
        · exact Or.inr ⟨sd2, hrest, h2⟩

/-- Concrete sample booked for a valid and an invalid test code. -/
def sampleR134 : SampleData :=
  { project := "project-a", sample := "sample1",
    instrument_id := "111111", specimen_id := "SP1",
    codes := ["R134.1", "invalidCode"], date := 20230101 }

/-- C2: under a catalog whose split succeeds, validate_test_codes accepts
a code iff it is a catalog test code or contains an HGNC:<digits> request;
the valid list holds exactly the samples with at least one accepted code,
each carrying exactly its accepted codes; the invalid mapping holds, per
sample name, exactly the booked codes that are neither accepted nor
research-use (plus the no-tests-booked marker for empty bookings), so a
research-use code is dropped without being recorded; and concretely a
sample booked for ["R134.1", "invalidCode"] against a catalog containing
R134.1 comes back valid with codes ["R134.1"] while "invalidCode" alone
is recorded under it in the invalid mapping. -/
theorem validate_test_codes_correct (samples : List SampleData)
    (genepanels : List GenepanelRow) (gp : List GenepanelRow3)
    (hsplit : split_genepanels_test_codes genepanels = .ok gp) :
    ∃ valid invalid,
      validate_test_codes samples genepanels = .ok (valid, invalid) ∧
      (∀ c, c ∈ genepanelsTestCodes gp ↔ ∃ r ∈ gp, r.test_code = c) ∧
      (∀ t : String, acceptCode (genepanelsTestCodes gp) t = true ↔
        (t ∈ genepanelsTestCodes gp ∨ hgncSearch t.data = true)) ∧
      valid = samples.filterMap (fun sd =>
        if (sd.codes.filter (acceptCode (genepanelsTestCodes gp))) = []
        then none
        else some { sd with
          codes := sd.codes.filter (acceptCode (genepanelsTestCodes gp)) }) ∧
      (∀ name c, c ∈ invalid name ↔ ∃ sd ∈ samples, sd.sample = name ∧
        ((sd.codes = [] ∧ c = "No tests booked for sample") ∨
         (c ∈ sd.codes ∧ acceptCode (genepanelsTestCodes gp) c = false ∧
           researchUseCode c = false))) ∧
      (∃ v2 i2, validate_test_codes [sampleR134] [gpRow1] = .ok (v2, i2) ∧
        v2 = [{ sampleR134 with codes := ["R134.1"] }] ∧
        "invalidCode" ∈ i2 "sample1" ∧ "R134.1" ∉ i2 "sample1") := by
  refine ⟨(samples.foldl (validateStep (genepanelsTestCodes gp))
      ([], fun _ => [])).1,
    (samples.foldl (validateStep (genepanelsTestCodes gp))
      ([], fun _ => [])).2, ?_, mem_genepanelsTestCodes gp, ?_, ?_, ?_, ?_⟩
  · simp only [validate_test_codes, hsplit]
  · intro t
    simp [acceptCode, decide_eq_true_eq]
  · rw [foldl_validateStep_fst (genepanelsTestCodes gp) samples
      ([], fun _ => [])]
    simp
  · intro name c
    rw [foldl_validateStep_snd (genepanelsTestCodes gp) samples
      ([], fun _ => []) name c]
    simp
  · exact ⟨_, _, rfl, by decide, by decide, by decide⟩

/-- Witness for the C2 theorem: its conclusion instantiated at the
concrete one-sample, one-row catalog input. -/
theorem validate_test_codes_correct_witness :
    ∃ valid invalid,
      validate_test_codes [sampleR134] [gpRow1] = .ok (valid, invalid) ∧
      (∀ c, c ∈ genepanelsTestCodes ([gpRow1].map withTestCode) ↔
        ∃ r ∈ [gpRow1].map withTestCode, r.test_code = c) ∧
      (∀ t : String,
        acceptCode (genepanelsTestCodes ([gpRow1].map withTestCode)) t =
            true ↔
          (t ∈ genepanelsTestCodes ([gpRow1].map withTestCode) ∨
            hgncSearch t.data = true)) ∧
      valid = [sampleR134].filterMap (fun sd =>
        if (sd.codes.filter
          (acceptCode (genepanelsTestCodes ([gpRow1].map withTestCode)))) = []
        then none
        else some { sd with
          codes := sd.codes.filter
            (acceptCode (genepanelsTestCodes ([gpRow1].map withTestCode))) }) ∧
      (∀ name c, c ∈ invalid name ↔ ∃ sd ∈ [sampleR134], sd.sample = name ∧
        ((sd.codes = [] ∧ c = "No tests booked for sample") ∨
         (c ∈ sd.codes ∧
           acceptCode (genepanelsTestCodes ([gpRow1].map withTestCode)) c =
             false ∧
           researchUseCode c = false))) ∧
      (∃ v2 i2, validate_test_codes [sampleR134] [gpRow1] = .ok (v2, i2) ∧
        v2 = [{ sampleR134 with codes := ["R134.1"] }] ∧
        "invalidCode" ∈ i2 "sample1" ∧ "R134.1" ∉ i2 "sample1") :=
  validate_test_codes_correct [sampleR134] [gpRow1]
    ([gpRow1].map withTestCode) rfl

/-- The fixed second line written to every manifest. -/
def manifestHeaderLine : String :=
  "Instrument ID;Specimen ID;Re-analysis Instrument ID;" ++
    "Re-analysis Specimen ID;Test Codes"

/-- One manifest body line for a sample and test code: the two re-analysis
columns between the three consecutive semicolons are left empty. -/
def manifestLine (sample : SampleData) (code : String) : String :=
  sample.instrument_id ++ ";" ++ sample.specimen_id ++ ";;;" ++ code

/-- Embedding of utils.write_manifest, modelling the written file at line
granularity: the manifest file name, the written lines, and the counter of
sample-test lines. The first write emits the lines batch and the header;
the loop then appends one line per non-ignored (sample, code) pair. -/
def write_manifest (project_name : String) (sample_data : List SampleData)
    (now : String) (ignore_codes : List String) :
    String × List String × Nat :=
  let manifest := project_name ++ "-" ++ now ++ "_reanalysis.manifest"
  let res := sample_data.foldl (fun acc sample =>
    (sample.codes.filter (fun x => decide (x ∉ ignore_codes))).foldl
      (fun a code => (a.1 ++ [manifestLine sample code], a.2 + 1)) acc)
    (["batch", manifestHeaderLine], 0)
  (manifest, res.1, res.2)

lemma foldl_manifestLine_codes (sample : SampleData) (codes : List String) :
    ∀ acc : List String × Nat,
      (codes.foldl (fun a code =>
        (a.1 ++ [manifestLine sample code], a.2 + 1)) acc).1 =
      acc.1 ++ codes.map (manifestLine sample) := by
  induction codes with
  | nil => intro acc; simp
  | cons c rest ih =>
    intro acc
    rw [List.foldl_cons, ih]
    simp

lemma foldl_manifest_samples (ignore_codes : List String)
    (sample_data : List SampleData) :
    ∀ acc : List String × Nat,
      (sample_data.foldl (fun acc sample =>
        (sample.codes.filter (fun x => decide (x ∉ ignore_codes))).foldl
          (fun a code => (a.1 ++ [manifestLine sample code], a.2 + 1)) acc)
        acc).1 =
      acc.1 ++ sample_data.flatMap (fun s =>
        (s.codes.filter (fun c => decide (c ∉ ignore_codes))).map
          (manifestLine s)) := by
  induction sample_data with
  | nil => intro acc; simp
  | cons s rest ih =>
    intro acc
    rw [List.foldl_cons, ih, foldl_manifestLine_codes]
    simp

/-- C3: the manifest contents are exactly the line batch, then the fixed
five-column header, then one <instrument_id>;<specimen_id>;;;<test_code>
line (re-analysis columns empty) per (sample, test code) pair whose code
is not excluded, and nothing else. -/
theorem write_manifest_format (project_name now : String)
    (sample_data : List SampleData) (ignore_codes : List String) :
    (write_manifest project_name sample_data now ignore_codes).2.1 =
      "batch" :: manifestHeaderLine ::
        sample_data.flatMap (fun s =>
          (s.codes.filter (fun c => decide (c ∉ ignore_codes))).map
            (manifestLine s)) := by
  unfold write_manifest
  dsimp only
  rw [foldl_manifest_samples]
  simp

/-- Suffix test on strings: the last characters of s spell the suffix,
Python str.endswith. -/
def strEndsWith (s suffix : String) : Bool :=
  decide (s.data.reverse.take suffix.data.length = suffix.data.reverse)

/-- Python dict write d[key] = ids on a JSON object embedded as an
association list: replace the value at the key if present, else append
the binding. -/
def setKey (log : List (String × List String)) (key : String)
    (ids : List String) : List (String × List String) :=
  match log with
  | [] => [(key, ids)]
  | (k, v) :: rest =>
    if k = key then (k, ids) :: rest else (k, v) :: setKey rest key ids

/-- Embedding of utils.write_to_log: assert the .json suffix, then write
the job IDs under the key in the loaded log contents and dump the result. -/
def write_to_log (log_file : String)
    (existing : List (String × List String)) (key : String)
    (job_ids : List String) :
    Except PyErr (List (String × List String)) :=
  if strEndsWith log_file ".json" then .ok (setKey existing key job_ids)
  else .error .assertionError

lemma lookup_setKey_self (log : List (String × List String)) (key : String)
    (ids : List String) : (setKey log key ids).lookup key = some ids := by
  induction log with
  | nil => simp [setKey, List.lookup]
  | cons kv rest ih =>
    obtain ⟨k, v⟩ := kv
    by_cases hk : k = key
    · subst hk
      simp [setKey, List.lookup]
    · have hbeq : (key == k) = false := by
        simp only [beq_eq_false_iff_ne, ne_eq]
        exact fun he => hk he.symm
      simp [setKey, hk, List.lookup, hbeq, ih]

lemma lookup_setKey_other (log : List (String × List String)) (key : String)
    (ids : List String) (k2 : String) (hk2 : k2 ≠ key) :
    (setKey log key ids).lookup k2 = log.lookup k2 := by
  have hbeq : (k2 == key) = false := by
    simp only [beq_eq_false_iff_ne, ne_eq]
    exact hk2
  induction log with
  | nil => simp [setKey, List.lookup, hbeq]
  | cons kv rest ih =>
    obtain ⟨k, v⟩ := kv
    by_cases hk : k = key
    · subst hk
      simp [setKey, List.lookup, hbeq]
    · cases hb : (k2 == k) with
      | true => simp [setKey, hk, List.lookup, hb]
      | false => simp [setKey, hk, List.lookup, hb, ih]

/-- C9: write_to_log on a .json log merges on write: the produced log
binds the written key to the given job IDs and leaves the value of every
other key exactly as in the prior contents. -/
theorem write_to_log_merge (log_file : String)
    (existing : List (String × List String)) (key : String)
    (job_ids : List String)
    (h : strEndsWith log_file ".json" = true) :
    ∃ d, write_to_log log_file existing key job_ids = .ok d ∧
      d.lookup key = some job_ids ∧
      ∀ k2, k2 ≠ key → d.lookup k2 = existing.lookup k2 := by
  refine ⟨setKey existing key job_ids, ?_,
    lookup_setKey_self existing key job_ids,
    fun k2 hk2 => lookup_setKey_other existing key job_ids k2 hk2⟩
  unfold write_to_log
  rw [if_pos h]

/-- Witness for the C9 theorem: updating one key of a concrete log keeps
the other key intact. -/
theorem write_to_log_merge_witness :
    ∃ d, write_to_log "run.json" [("dias_batch", ["job-1"])]
        "dias_reports" ["job-2"] = .ok d ∧
      d.lookup "dias_reports" = some ["job-2"] ∧
      ∀ k2, k2 ≠ "dias_reports" →
        d.lookup k2 = [("dias_batch", ["job-1"])].lookup k2 :=
  write_to_log_merge "run.json" [("dias_batch", ["job-1"])]
    "dias_reports" ["job-2"] (by decide)
